import Mathlib

/-! Verification of the conda manifest parsing module (src/packagedcode/conda.py).
    Python strings are modelled as Lean strings, viewed as lists of characters;
    the Python string operations used by the module are given executable
    definitions below, and the module functions are translated on top of them. -/

namespace CondaPy

/-- Characters treated as whitespace by the Python strip operations
    (ASCII subset, sufficient for the inputs handled here). -/
def pyWS : List Char := [' ', '\t', '\n', '\r', '\x0b', '\x0c']

/-- Boolean test: the first list is a leading segment of the second.
    Models the positional matching used by Python find, split and replace. -/
def startsB : List Char → List Char → Bool
  | [], _ => true
  | _ :: _, [] => false
  | p :: ps, c :: cs => p == c && startsB ps cs

/-- Python membership test sub in s, on character lists. -/
def containsB (pat : List Char) : List Char → Bool
  | [] => pat.isEmpty
  | c :: cs => startsB pat (c :: cs) || containsB pat cs

/-- Python str.split on a separator, fuel-indexed so that the recursion is
    structural; splitB below instantiates the fuel with the list length.
    Leftmost, non-overlapping matches, as in Python. -/
def splitF (sep : List Char) : Nat → List Char → List (List Char)
  | _, [] => [[]]
  | 0, l => [l]
  | fuel+1, c :: cs =>
    if startsB sep (c :: cs) && !sep.isEmpty then
      [] :: splitF sep fuel (List.drop (sep.length - 1) cs)
    else
      match splitF sep fuel cs with
      | [] => [[c]]
      | t :: ts => (c :: t) :: ts

/-- Python str.split on a non-empty separator. -/
def splitB (sep l : List Char) : List (List Char) := splitF sep l.length l

/-- Python str.replace, fuel-indexed; replaces leftmost non-overlapping
    occurrences, as in Python. -/
def replaceF (pat rep : List Char) : Nat → List Char → List Char
  | _, [] => []
  | 0, l => l
  | fuel+1, c :: cs =>
    if startsB pat (c :: cs) && !pat.isEmpty then
      rep ++ replaceF pat rep fuel (List.drop (pat.length - 1) cs)
    else
      c :: replaceF pat rep fuel cs

/-- Python str.replace with a non-empty pattern. -/
def replaceB (pat rep l : List Char) : List Char := replaceF pat rep l.length l

/-- Python sep.join for character lists. -/
def joinB (sep : List Char) : List (List Char) → List Char
  | [] => []
  | [t] => t
  | t :: ts => t ++ sep ++ joinB sep ts

/-- Python str.lstrip with an explicit character set. -/
def lstripB (cs : List Char) : List Char → List Char
  | [] => []
  | c :: l => if c ∈ cs then lstripB cs l else c :: l

/-- Python membership test sub in s. -/
def pyIn (sub s : String) : Bool := containsB sub.toList s.toList

/-- Python s.startswith(p). -/
def pyStarts (s p : String) : Bool := startsB p.toList s.toList

/-- Python s.endswith(p). -/
def pyEnds (s p : String) : Bool := startsB p.toList.reverse s.toList.reverse

/-- Python s.lstrip(chars). -/
def pyLStrip (s : String) (cs : List Char) : String := String.mk (lstripB cs s.toList)

/-- Python s.rstrip(chars). -/
def pyRStrip (s : String) (cs : List Char) : String :=
  String.mk ((lstripB cs s.toList.reverse).reverse)

/-- Python s.strip() with no argument: whitespace removed from both ends. -/
def pyStripWS (s : String) : String := pyLStrip (pyRStrip s pyWS) pyWS

/-- Python s.strip(chars): the character set removed from both ends. -/
def pyStripChars (s : String) (cs : List Char) : String := pyLStrip (pyRStrip s cs) cs

/-- Python s.split(sep) for strings. -/
def pySplit (sep s : String) : List String := (splitB sep.toList s.toList).map String.mk

/-- Python s.replace(pat, rep) for strings. -/
def pyReplace (s pat rep : String) : String :=
  String.mk (replaceB pat.toList rep.toList s.toList)

/-- Python sep.join(parts) for strings. -/
def pyJoin (sep : String) (parts : List String) : String :=
  String.mk (joinB sep.toList (parts.map String.toList))

/-- Python s.lower() (ASCII case folding, as used by the module). -/
def pyLower (s : String) : String := String.mk (s.toList.map Char.toLower)

/-- Python s.partition(sep) restricted to the two components the module uses:
    the text before the first occurrence of sep and the text after it; when
    sep does not occur, the pair is the whole string and the empty string. -/
def pyPartition2 (s sep : String) : String × String :=
  match pySplit sep s with
  | [] => (s, "")
  | [_] => (s, "")
  | t :: ts => (t, pyJoin sep ts)

/-- Python dict insertion on an insertion-ordered association list:
    an existing key keeps its position and gets the new value, a new key is
    appended at the end.  This models dict assignment d[k] = v. -/
def dictInsert (d : List (String × String)) (k v : String) : List (String × String) :=
  if d.any (fun kv => kv.1 == k) then
    d.map (fun kv => if kv.1 == k then (k, v) else kv)
  else d ++ [(k, v)]

/-- Python dict of lists: append v to the list under k, creating the entry
    when missing.  Models the extra underscore data update in the scoped parse. -/
def listDictAppend (d : List (String × List String)) (k v : String) :
    List (String × List String) :=
  if d.any (fun kv => kv.1 == k) then
    d.map (fun kv => if kv.1 == k then (kv.1, kv.2 ++ [v]) else kv)
  else d ++ [(k, [v])]

/-- Lookup in a dict of lists, empty when the key is absent. -/
def listDictGet (d : List (String × List String)) (k : String) : List String :=
  match d.find? (fun kv => kv.1 == k) with
  | some kv => kv.2
  | none => []

/-! The data model: the package identifier and the dependency record built by
    the module.  The identifier keeps the four components the module passes to
    the external PackageURL constructor; the formatter turning it into a
    string is an external collaborator and out of scope. -/

/-- Package identifier components (type, namespace, name, version) as passed
    to the external PackageURL constructor. -/
structure PUrl where
  ptype : String
  nmspace : Option String
  name : String
  version : Option String
deriving DecidableEq, Repr

/-- One dependency record as built by models.DependentPackage in conda.py. -/
structure DependentPackage where
  purl : PUrl
  extracted_requirement : Option String
  scope : String
  is_runtime : Bool
  is_optional : Bool
  is_pinned : Bool
  is_direct : Bool
deriving DecidableEq, Repr

/-! Template handling: get_variables, the per-line substitution inside
    get_meta_yaml_data, and the final cleanup filter.  A source file is
    modelled as its list of lines. -/

/-- Predicate from conda.py lines 291 to 295 and 333, applied to an already
    stripped line: it starts with the open marker, ends with the close marker
    and contains an assignment operator. -/
def is_decl_line (l : String) : Bool :=
  pyStarts l "\x7b%" && pyEnds l "%\x7d" && pyIn "=" l

/-- Processing of one declaration line body, conda.py lines 334 to 336:
    strip the markers, surrounding whitespace and the leading declaration
    keyword characters, exactly as the chained lstrip and rstrip calls do. -/
def declBody (l : String) : String :=
  pyLStrip (pyLStrip (pyStripWS (pyRStrip (pyLStrip l ['\x7b', '%']) ['%', '\x7d'])) ['s', 'e', 't']) pyWS

/-- Name and value extracted from a declaration line, conda.py lines 335, 336:
    split on the assignment operator, the name is the first part and the value
    the last part, whitespace stripped and quote characters stripped from the
    value. -/
def extract_var (l : String) : String × String :=
  let parts := pySplit "=" (declBody l)
  (pyStripWS (parts.headD ""), pyStripChars (pyStripWS (parts.getLastD "")) ['"'])

/-- Translation of get_variables, conda.py lines 318 to 337, over the list of
    lines of the file. -/
def get_variables (lines : List String) : List (String × String) :=
  lines.foldl
    (fun acc line =>
      if line = "" then acc
      else
        let l := pyStripWS line
        if is_decl_line l then
          let kv := extract_var l
          dictInsert acc kv.1 kv.2
        else acc)
    []

/-- The per-variable substitution pass of get_meta_yaml_data, conda.py lines
    299 to 304: when the line holds both reference markers, each table entry
    is applied in insertion order; a line currently containing the lower
    filter marker has only its lower form occurrences replaced, by the
    lower-cased value, otherwise the plain form occurrences are replaced by
    the literal value. -/
def subst_line (vtable : List (String × String)) (line : String) : String :=
  if pyIn "\x7b\x7b" line && pyIn "\x7d\x7d" line then
    vtable.foldl
      (fun l kv =>
        if pyIn "|lower" l then
          pyReplace l ("\x7b\x7b " ++ kv.1 ++ "|lower \x7d\x7d") (pyLower kv.2)
        else
          pyReplace l ("\x7b\x7b " ++ kv.1 ++ " \x7d\x7d") kv.2)
      line
  else line

/-- Per-line step of get_meta_yaml_data, lines 287 to 305: empty lines and
    declaration lines are dropped, every other line goes through
    substitution. -/
def process_line (vtable : List (String × String)) (line : String) : Option String :=
  if line = "" then none
  else if is_decl_line (pyStripWS line) then none
  else some (subst_line vtable line)

/-- Template resolution of get_meta_yaml_data, conda.py lines 285 to 313:
    substitution pass followed by the cleanup filter that discards any line
    still containing the open reference marker. -/
def resolve (vtable : List (String × String)) (lines : List String) : List String :=
  (lines.filterMap (process_line vtable)).filter (fun l => !(pyIn "\x7b\x7b" l))

/-! The scoped recipe requirement parse, CondaMetaYamlHandler.parse,
    conda.py lines 119 to 175.  Python raising is modelled with Except:
    the tuple unpacking a, b = s.split(sep) raises ValueError unless the
    split has exactly two parts. -/

/-- Name, requirement expression, namespace, version and pin flag computed
    from one requirement token, conda.py lines 128 to 143. -/
def parse_req_parts (req : String) :
    Except String (String × String × Option String × Option String × Bool) :=
  let p := pyPartition2 req " "
  let name0 := p.1
  let requirement0 := p.2
  let version0 : Option String := none
  match
    (if pyStarts requirement0 "==" then
      match pySplit "==" requirement0 with
      | [_, b] => Except.ok (some b)
      | _ => Except.error "ValueError"
    else Except.ok version0) with
  | Except.error e => Except.error e
  | Except.ok version1 =>
    match
      (if pyIn "::" name0 then
        match pySplit "::" name0 with
        | [a, b] => Except.ok (some a, b)
        | _ => Except.error "ValueError"
      else Except.ok ((none : Option String), name0)) with
    | Except.error e => Except.error e
    | Except.ok (nmspace, name1) =>
      if pyIn "=" name1 then
        match pySplit "=" name1 with
        | [a, b] => Except.ok (a, "=" ++ b, nmspace, some b, true)
        | _ => Except.error "ValueError"
      else Except.ok (name1, requirement0, nmspace, version1, false)

/-- Outcome for one scoped requirement token: an ordinary dependency record,
    or routing of the raw token to the per-scope extra data bucket. -/
inductive ReqOutcome where
  | dep (d : DependentPackage)
  | bucket
deriving DecidableEq, Repr

/-- One scoped requirement token turned into its outcome, conda.py lines 127
    to 175: reserved names go to the bucket, anything else becomes a record
    whose runtime and optional flags follow the scope name. -/
def parse_req_token (scope req : String) : Except String ReqOutcome :=
  match parse_req_parts req with
  | Except.error e => Except.error e
  | Except.ok (name, requirement, nmspace, version, pinned) =>
    if name = "pip" ∨ name = "python" then Except.ok ReqOutcome.bucket
    else
      Except.ok (ReqOutcome.dep
        ⟨⟨"conda", nmspace, name, version⟩, some requirement, scope,
          pyIn "run" scope, !(pyIn "run" scope), pinned, true⟩)

/-- Accumulated state of the requirements loop: the dependency list and the
    extra data mapping. -/
structure MetaState where
  deps : List DependentPackage
  extra : List (String × List String)
deriving DecidableEq, Repr

/-- One step of the requirements loop, conda.py lines 127 to 175: a bucket
    outcome appends the raw token under the scope key of extra data, a
    dependency outcome appends the record. -/
def meta_req_step (scope : String) (st : MetaState) (req : String) :
    Except String MetaState :=
  match parse_req_token scope req with
  | Except.error e => Except.error e
  | Except.ok ReqOutcome.bucket => Except.ok ⟨st.deps, listDictAppend st.extra scope req⟩
  | Except.ok (ReqOutcome.dep d) => Except.ok ⟨st.deps ++ [d], st.extra⟩

/-- The requirements loop of CondaMetaYamlHandler.parse over one scope. -/
def meta_scope_run (scope : String) (st : MetaState) :
    List String → Except String MetaState
  | [] => Except.ok st
  | r :: rs =>
    match meta_req_step scope st r with
    | Except.error e => Except.error e
    | Except.ok st2 => meta_scope_run scope st2 rs

/-- The full requirements loop of CondaMetaYamlHandler.parse with an explicit
    starting state. -/
def parse_requirements_from (st : MetaState) :
    List (String × List String) → Except String MetaState
  | [] => Except.ok st
  | kv :: rest =>
    match meta_scope_run kv.1 st kv.2 with
    | Except.error e => Except.error e
    | Except.ok st2 => parse_requirements_from st2 rest

/-- The full requirements loop of CondaMetaYamlHandler.parse, conda.py lines
    119 to 175, over the scope to token list mapping. -/
def parse_requirements (reqs : List (String × List String)) : Except String MetaState :=
  parse_requirements_from ⟨[], []⟩ reqs

/-! The flat environment list parse, get_conda_yaml_dependencies, conda.py
    lines 194 to 274.  The external requirement line parser is a parameter;
    the Python local variable version of that function is only initialised
    inside two of the branches, so it is threaded through the loop as an
    explicit state: none models the unbound local, whose read raises
    UnboundLocalError. -/

/-- Result of the external requirement line parser: the distribution name and
    the string rendering of the parsed specifier set. -/
structure ReqParse where
  name : String
  specs : String
deriving DecidableEq, Repr

/-- Modelled from the spec: the external requirement string parser
    (dparse2.parser.parse_requirement_line, not part of this repository).
    Per the spec it handles PyPI style name plus specifier grammar and
    returns the name and specifier set, or none when the line does not
    match. -/
def parse_requirement_line (line : String) : Option ReqParse :=
  let s := pyStripWS line
  let nameChars := s.toList.takeWhile (fun c =>
    c.isAlphanum || c = '.' || c = '_' || c = '-')
  let rest := pyStripWS (String.mk (s.toList.dropWhile (fun c =>
    c.isAlphanum || c = '.' || c = '_' || c = '-')))
  if nameChars = [] then none
  else if rest = "" then some ⟨String.mk nameChars, ""⟩
  else if pyStarts rest "==" || pyStarts rest ">" || pyStarts rest "<"
      || pyStarts rest "!=" || pyStarts rest "~=" then
    some ⟨String.mk nameChars, rest⟩
  else none

/-- One flat dependency entry: either a plain string token or the pip mapping
    with its list of lines, matching the isinstance dispatch of the code. -/
inductive CondaDep where
  | str (s : String)
  | pipmap (lines : List String)

/-- State of the Python local variable version across loop iterations:
    none is the unbound state. -/
abbrev VerState := Option (Option String)

/-- One string item of the flat dependency list, conda.py lines 202 to 248.
    Returns the emitted record, if any, and the updated version local. -/
def parse_flat_str (prl : String → Option ReqParse) (verSt : VerState)
    (dep0 : String) : Except String (Option DependentPackage × VerState) :=
  match
    (if pyIn "::" dep0 then
      match pySplit "::" dep0 with
      | [a, b] =>
        if pyIn "/" a || pyIn ":" a then Except.ok ((none : Option String), b)
        else Except.ok (some a, b)
      | _ => Except.error "ValueError"
    else Except.ok ((none : Option String), dep0)) with
  | Except.error e => Except.error e
  | Except.ok (nmspace, dep) =>
    match prl dep with
    | some req =>
      let specs := req.specs
      let vp : Option String × Bool :=
        if pyIn "==" specs then (some (pyReplace specs "==" ""), true) else (none, false)
      let purl : PUrl := ⟨"pypi", none, req.name, vp.1⟩
      if purl.name = "pip" ∨ purl.name = "python" then
        Except.ok (none, some vp.1)
      else
        Except.ok (some ⟨purl, some specs, "dependencies", true, false, vp.2, true⟩,
          some vp.1)
    | none =>
      if pyIn "=" dep then
        match pySplit "=" dep with
        | [a, b] =>
          let purl : PUrl := ⟨"conda", nmspace, a, some b⟩
          if purl.name = "pip" ∨ purl.name = "python" then
            Except.ok (none, some (some b))
          else
            Except.ok (some ⟨purl, some ("=" ++ b), "dependencies", true, false, true, true⟩,
              some (some b))
        | _ => Except.error "ValueError"
      else
        match verSt with
        | none => Except.error "UnboundLocalError"
        | some v =>
          let purl : PUrl := ⟨"conda", nmspace, dep, v⟩
          if purl.name = "pip" ∨ purl.name = "python" then
            Except.ok (none, verSt)
          else
            Except.ok (some ⟨purl, none, "dependencies", true, false, false, true⟩, verSt)

/-- One line of the pip sub list, conda.py lines 251 to 272.  No reserved
    name filter is applied on this path. -/
def parse_flat_pipline (prl : String → Option ReqParse) (verSt : VerState)
    (line : String) : Option DependentPackage × VerState :=
  match prl line with
  | none => (none, verSt)
  | some req =>
    let specs := req.specs
    let vp : Option String × Bool :=
      if pyIn "==" specs then (some (pyReplace specs "==" ""), true) else (none, false)
    (some ⟨⟨"pypi", none, req.name, vp.1⟩, some specs, "dependencies", true, false, vp.2, true⟩,
      some vp.1)

/-- One item of the flat dependency list: the list of records it emits and the
    updated version local. -/
def parse_flat_item (prl : String → Option ReqParse) (verSt : VerState) :
    CondaDep → Except String (List DependentPackage × VerState)
  | CondaDep.str d =>
    match parse_flat_str prl verSt d with
    | Except.error e => Except.error e
    | Except.ok (o, st) => Except.ok (o.toList, st)
  | CondaDep.pipmap lines =>
    Except.ok (lines.foldl
      (fun acc line =>
        let r := parse_flat_pipline prl acc.2 line
        (acc.1 ++ r.1.toList, r.2))
      ([], verSt))

/-- The flat dependency loop with an explicit starting state. -/
def run_flat (prl : String → Option ReqParse) (verSt : VerState) :
    List CondaDep → Except String (List DependentPackage × VerState)
  | [] => Except.ok ([], verSt)
  | d :: ds =>
    match parse_flat_item prl verSt d with
    | Except.error e => Except.error e
    | Except.ok (out, st) =>
      match run_flat prl st ds with
      | Except.error e => Except.error e
      | Except.ok (rest, st2) => Except.ok (out ++ rest, st2)

/-- Translation of get_conda_yaml_dependencies, conda.py lines 194 to 274,
    parameterised by the external requirement line parser. -/
def get_conda_yaml_dependencies (prl : String → Option ReqParse)
    (deps : List CondaDep) : Except String (List DependentPackage) :=
  match run_flat prl none deps with
  | Except.error e => Except.error e
  | Except.ok (out, _) => Except.ok out

/-- Modelled from the spec wording for comparison (refinement check for the
    variable extraction): the value obtained by splitting the processed
    declaration body on the FIRST assignment operator, whitespace stripped and
    quote characters stripped.  The code under test uses the last operator
    instead; the two agree only when the body holds a single operator. -/
def spec_first_split_value (l : String) : String :=
  pyStripChars (pyStripWS (pyPartition2 (declBody l) "=").2) ['"']

/-! Lemmas about the string primitives. -/

theorem startsB_self_append (p r : List Char) : startsB p (p ++ r) = true := by
  induction p with
  | nil => rfl
  | cons c cs ih => simp [startsB, ih]

theorem startsB_drop {p l : List Char} (h : startsB p l = true) :
    p ++ List.drop p.length l = l := by
  induction p generalizing l with
  | nil => simp
  | cons c cs ih =>
    cases l with
    | nil => simp [startsB] at h
    | cons x xs =>
      rw [startsB, Bool.and_eq_true, beq_iff_eq] at h
      obtain ⟨h1, h2⟩ := h
      subst h1
      simpa using ih h2

theorem containsB_single {ch : Char} {l : List Char} :
    containsB [ch] l = true ↔ ch ∈ l := by
  induction l with
  | nil => simp [containsB]
  | cons c cs ih =>
    rw [containsB, Bool.or_eq_true, ih]
    simp [startsB]

theorem splitF_ne_nil (sep : List Char) (f : Nat) (l : List Char) :
    splitF sep f l ≠ [] := by
  induction f generalizing l with
  | zero => cases l <;> simp [splitF]
  | succ n ih =>
    cases l with
    | nil => simp [splitF]
    | cons c cs =>
      simp only [splitF]
      split
      · simp
      · cases h : splitF sep n cs with
        | nil => exact absurd h (ih cs)
        | cons t ts => simp [h]

theorem splitF_fuel (sep : List Char) (f1 : Nat) :
    ∀ (f2 : Nat) (l : List Char), l.length ≤ f1 → l.length ≤ f2 →
      splitF sep f1 l = splitF sep f2 l := by
  induction f1 with
  | zero =>
    intro f2 l h1 _
    have hl : l = [] := List.eq_nil_of_length_eq_zero (Nat.le_zero.mp h1)
    subst hl
    cases f2 <;> rfl
  | succ n ih =>
    intro f2 l h1 h2
    cases l with
    | nil => cases f2 <;> rfl
    | cons c cs =>
      cases f2 with
      | zero => simp at h2
      | succ m =>
        simp only [List.length_cons, Nat.succ_le_succ_iff] at h1 h2
        simp only [splitF]
        split
        · congr 1
          refine ih m _ ?_ ?_ <;> · simp only [List.length_drop]; omega
        · rw [ih m cs h1 h2]

theorem splitB_cons (sep : List Char) (c : Char) (cs : List Char) :
    splitB sep (c :: cs) =
      if startsB sep (c :: cs) && !sep.isEmpty then
        [] :: splitB sep (List.drop (sep.length - 1) cs)
      else
        match splitB sep cs with
        | [] => [[c]]
        | t :: ts => (c :: t) :: ts := by
  show splitF sep (cs.length + 1) (c :: cs) = _
  simp only [splitF]
  split
  · congr 1
    refine splitF_fuel sep cs.length _ _ ?_ ?_
    · simp only [List.length_drop]; omega
    · exact le_refl _
  · rfl

theorem splitF_of_not_contains (sep : List Char) (f : Nat) (l : List Char)
    (h : containsB sep l = false) : splitF sep f l = [l] := by
  induction f generalizing l with
  | zero => cases l <;> rfl
  | succ n ih =>
    cases l with
    | nil => rfl
    | cons c cs =>
      rw [containsB, Bool.or_eq_false_iff] at h
      simp only [splitF]
      rw [if_neg (by simp [h.1]), ih cs h.2]

theorem splitB_of_not_contains (sep l : List Char)
    (h : containsB sep l = false) : splitB sep l = [l] :=
  splitF_of_not_contains sep l.length l h

theorem joinB_cons₂ (sep t u : List Char) (ts : List (List Char)) :
    joinB sep (t :: u :: ts) = t ++ sep ++ joinB sep (u :: ts) := rfl

theorem joinB_splitF (sep : List Char) (hs : sep ≠ []) (f : Nat) :
    ∀ l : List Char, l.length ≤ f → joinB sep (splitF sep f l) = l := by
  induction f with
  | zero =>
    intro l h
    have hl : l = [] := List.eq_nil_of_length_eq_zero (Nat.le_zero.mp h)
    subst hl; rfl
  | succ n ih =>
    intro l h
    cases l with
    | nil => rfl
    | cons c cs =>
      simp only [List.length_cons, Nat.succ_le_succ_iff] at h
      simp only [splitF]
      split
      case isTrue hc =>
        rw [Bool.and_eq_true] at hc
        obtain ⟨h1, _⟩ := hc
        cases hsp : splitF sep n (List.drop (sep.length - 1) cs) with
        | nil => exact absurd hsp (splitF_ne_nil sep n _)
        | cons t ts =>
          have hj : joinB sep ([] :: t :: ts) = sep ++ joinB sep (t :: ts) := rfl
          rw [hj, ← hsp, ih _ (by simp only [List.length_drop]; omega)]
          have hd := startsB_drop h1
          cases sep with
          | nil => exact absurd rfl hs
          | cons s ss => simpa using hd
      case isFalse hc =>
        cases hsp : splitF sep n cs with
        | nil => exact absurd hsp (splitF_ne_nil sep n _)
        | cons t ts =>
          have iht : joinB sep (t :: ts) = cs := by rw [← hsp]; exact ih cs h
          cases ts with
          | nil =>
            have ht : t = cs := iht
            rw [ht]
            rfl
          | cons u us =>
            rw [joinB_cons₂] at iht
            show joinB sep ((c :: t) :: u :: us) = c :: cs
            rw [joinB_cons₂, ← iht]
            simp

theorem joinB_splitB (sep l : List Char) (hs : sep ≠ []) :
    joinB sep (splitB sep l) = l :=
  joinB_splitF sep hs l.length l (le_refl _)

theorem replaceF_eq_join (pat rep : List Char) (f : Nat) :
    ∀ l, replaceF pat rep f l = joinB rep (splitF pat f l) := by
  induction f with
  | zero => intro l; cases l <;> rfl
  | succ n ih =>
    intro l
    cases l with
    | nil => rfl
    | cons c cs =>
      simp only [replaceF, splitF]
      by_cases hc : (startsB pat (c :: cs) && !pat.isEmpty) = true
      · rw [if_pos hc, if_pos hc]
        cases hsp : splitF pat n (List.drop (pat.length - 1) cs) with
        | nil => exact absurd hsp (splitF_ne_nil pat n _)
        | cons t ts =>
          rw [ih, hsp]
          rfl
      · rw [if_neg hc, if_neg hc]
        cases hsp : splitF pat n cs with
        | nil => exact absurd hsp (splitF_ne_nil pat n _)
        | cons t ts =>
          rw [ih, hsp]
          cases ts with
          | nil => rfl
          | cons u us => simp [joinB_cons₂]

theorem replaceB_eq_join (pat rep l : List Char) :
    replaceB pat rep l = joinB rep (splitB pat l) :=
  replaceF_eq_join pat rep l.length l

theorem single_char_cond (ch x : Char) (rest : List Char) :
    (startsB [ch] (x :: rest) && !([ch].isEmpty)) = (ch == x) := by
  have h1 : startsB [] rest = true := rfl
  have h2 : [ch].isEmpty = false := rfl
  show (((ch == x) && startsB [] rest) && !([ch].isEmpty)) = (ch == x)
  rw [h1, h2]
  simp

theorem splitB_append_cons (ch : Char) (a b : List Char) (h : ch ∉ a) :
    splitB [ch] (a ++ ch :: b) = a :: splitB [ch] b := by
  induction a with
  | nil =>
    rw [List.nil_append, splitB_cons]
    rw [if_pos (by rw [single_char_cond]; simp)]
    simp
  | cons x xs ih =>
    have hx : ch ≠ x := fun he => h (he ▸ List.mem_cons_self x xs)
    have hxs : ch ∉ xs := fun he => h (List.mem_cons_of_mem x he)
    rw [List.cons_append, splitB_cons]
    rw [if_neg (by rw [single_char_cond]; simp [hx])]
    rw [ih hxs]

theorem splitF_single_not_mem (ch : Char) (f : Nat) :
    ∀ l, l.length ≤ f → ∀ p ∈ splitF [ch] f l, ch ∉ p := by
  induction f with
  | zero =>
    intro l h p hp
    have hl : l = [] := List.eq_nil_of_length_eq_zero (Nat.le_zero.mp h)
    subst hl
    simp only [splitF, List.mem_singleton] at hp
    subst hp; simp
  | succ n ih =>
    intro l h p hp
    cases l with
    | nil =>
      simp only [splitF, List.mem_singleton] at hp
      subst hp; simp
    | cons c cs =>
      simp only [List.length_cons, Nat.succ_le_succ_iff] at h
      simp only [splitF] at hp
      by_cases hc : (startsB [ch] (c :: cs) && !([ch].isEmpty)) = true
      · rw [if_pos hc] at hp
        simp only [List.length_singleton, Nat.sub_self, List.drop_zero] at hp
        rcases List.mem_cons.mp hp with h1 | h2
        · subst h1; simp
        · exact ih cs h p h2
      · rw [if_neg hc] at hp
        have hcc : ch ≠ c := by
          intro he
          exact hc (by simp [startsB, he])
        cases hsp : splitF [ch] n cs with
        | nil => exact absurd hsp (splitF_ne_nil [ch] n cs)
        | cons t ts =>
          rw [hsp] at hp
          rcases List.mem_cons.mp hp with h1 | h2
          · subst h1
            intro hmem
            rcases List.mem_cons.mp hmem with h3 | h4
            · exact hcc h3
            · exact ih cs h t (hsp ▸ List.mem_cons_self t ts) h4
          · exact ih cs h p (hsp ▸ List.mem_cons_of_mem t h2)

theorem splitB_single_not_mem (ch : Char) (l : List Char) :
    ∀ p ∈ splitB [ch] l, ch ∉ p :=
  splitF_single_not_mem ch l.length l (le_refl _)

theorem joinB_append_last (sep : List Char) (ps : List (List Char)) (p : List Char)
    (h : ps ≠ []) : joinB sep (ps ++ [p]) = joinB sep ps ++ sep ++ p := by
  induction ps with
  | nil => exact absurd rfl h
  | cons x xs ih =>
    cases xs with
    | nil => simp [joinB]
    | cons y ys =>
      have hih := ih (by simp)
      simp only [List.cons_append] at hih ⊢
      rw [joinB_cons₂, hih, joinB_cons₂]
      simp [List.append_assoc]

theorem mem_lstripB {a : Char} {cs : List Char} (ha : a ∉ cs) :
    ∀ {l : List Char}, a ∈ l → a ∈ lstripB cs l := by
  intro l
  induction l with
  | nil => simp
  | cons c l ih =>
    intro h
    simp only [lstripB]
    split
    case isTrue hcs =>
      rcases List.mem_cons.mp h with h1 | h2
      · exact absurd (h1 ▸ hcs) ha
      · exact ih h2
    case isFalse => exact h

/-! String level corollaries. -/

theorem toList_mk (l : List Char) : (String.mk l).toList = l := rfl

theorem mk_toList (s : String) : String.mk s.toList = s := rfl

theorem toList_append (a b : String) : (a ++ b).toList = a.toList ++ b.toList := by
  cases a; cases b; rfl

theorem toList_eq_nil {s : String} : s.toList = [] ↔ s = "" := by
  constructor
  · intro h
    have hh : String.mk s.toList = String.mk [] := by rw [h]
    exact hh
  · intro h
    rw [h]
    rfl

theorem pyJoin_pySplit (sep s : String) (hs : sep ≠ "") :
    pyJoin sep (pySplit sep s) = s := by
  unfold pyJoin pySplit
  rw [List.map_map]
  have : (String.toList ∘ String.mk) = id := by
    funext l; rfl
  rw [this, List.map_id, joinB_splitB _ _ (fun he => hs (toList_eq_nil.mp he))]
  exact mk_toList s

theorem pyReplace_eq_join (s pat rep : String) :
    pyReplace s pat rep = pyJoin rep (pySplit pat s) := by
  unfold pyReplace pyJoin pySplit
  rw [List.map_map]
  have : (String.toList ∘ String.mk) = id := by
    funext l; rfl
  rw [this, List.map_id, replaceB_eq_join]

theorem string_ext {a b : String} (h : a.toList = b.toList) : a = b := by
  have hh : String.mk a.toList = String.mk b.toList := by rw [h]
  exact hh

/-! Lemmas about template resolution. -/

theorem resolve_no_marker (vt : List (String × String)) (lines : List String) :
    ∀ l ∈ resolve vt lines, pyIn "\x7b\x7b" l = false := by
  intro l hl
  unfold resolve at hl
  rw [List.mem_filter] at hl
  simpa using hl.2

theorem resolve_provenance (vt : List (String × String)) (lines : List String) :
    ∀ l ∈ resolve vt lines, ∃ l0 ∈ lines, process_line vt l0 = some l := by
  intro l hl
  unfold resolve at hl
  rw [List.mem_filter] at hl
  exact List.mem_filterMap.mp hl.1

theorem resolve_fixed (vt : List (String × String)) :
    ∀ lines : List String,
      (∀ l ∈ lines,
        l ≠ "" ∧ is_decl_line (pyStripWS l) = false ∧ pyIn "\x7b\x7b" l = false) →
      resolve vt lines = lines := by
  intro lines
  induction lines with
  | nil => intro _; rfl
  | cons x xs ih =>
    intro h
    obtain ⟨hx1, hx2, hx3⟩ := h x (List.mem_cons_self x xs)
    have hxs := fun l hl => h l (List.mem_cons_of_mem x hl)
    have hpl : process_line vt x = some x := by
      unfold process_line
      rw [if_neg hx1, if_neg (by simp [hx2])]
      unfold subst_line
      rw [if_neg (by simp [hx3])]
    have hfm : List.filterMap (process_line vt) (x :: xs)
        = x :: List.filterMap (process_line vt) xs := by
      rw [List.filterMap_cons, hpl]
    unfold resolve
    rw [hfm, List.filter_cons_of_pos (by simp [hx3])]
    show x :: resolve vt xs = x :: xs
    rw [ih hxs]

/-! Lemmas about the variable table. -/

theorem dictInsert_fresh (d : List (String × String)) (k v : String)
    (h : ∀ kv ∈ d, kv.1 ≠ k) : dictInsert d k v = d ++ [(k, v)] := by
  have hc : d.any (fun kv => kv.1 == k) = false := by
    rw [List.any_eq_false]
    intro kv hkv
    simp [h kv hkv]
  unfold dictInsert
  rw [hc]
  rfl

theorem foldl_dictInsert_length (pairs : List (String × String)) :
    ∀ acc : List (String × String),
      (pairs.map Prod.fst).Nodup →
      (∀ p ∈ pairs, ∀ kv ∈ acc, kv.1 ≠ p.1) →
      (pairs.foldl (fun a p => dictInsert a p.1 p.2) acc).length
        = acc.length + pairs.length := by
  induction pairs with
  | nil => intro acc _ _; simp
  | cons p ps ih =>
    intro acc hnd hfresh
    simp only [List.map_cons, List.nodup_cons] at hnd
    simp only [List.foldl_cons]
    rw [dictInsert_fresh acc p.1 p.2
      (fun kv hkv => hfresh p (List.mem_cons_self p ps) kv hkv)]
    rw [ih (acc ++ [(p.1, p.2)]) hnd.2 ?fresh]
    · simp only [List.length_append, List.length_cons, List.length_nil]
      omega
    case fresh =>
      intro q hq kv hkv
      rcases List.mem_append.mp hkv with hkv1 | hkv2
      · exact hfresh q (List.mem_cons_of_mem p hq) kv hkv1
      · rw [List.mem_singleton.mp hkv2]
        intro he
        exact hnd.1 (he ▸ List.mem_map_of_mem Prod.fst hq)

theorem get_variables_eq_fold (lines : List String) :
    get_variables lines =
      ((lines.filter (fun l => is_decl_line (pyStripWS l))).map
        (fun l => extract_var (pyStripWS l))).foldl
        (fun a kv => dictInsert a kv.1 kv.2) [] := by
  have haux : ∀ (ls : List String) (acc : List (String × String)),
      ls.foldl
        (fun acc line =>
          if line = "" then acc
          else
            let l := pyStripWS line
            if is_decl_line l then
              let kv := extract_var l
              dictInsert acc kv.1 kv.2
            else acc)
        acc
      = ((ls.filter (fun l => is_decl_line (pyStripWS l))).map
          (fun l => extract_var (pyStripWS l))).foldl
          (fun a kv => dictInsert a kv.1 kv.2) acc := by
    intro ls
    induction ls with
    | nil => intro acc; rfl
    | cons x xs ihx =>
      intro acc
      by_cases hx : x = ""
      · subst hx
        simp only [List.foldl_cons, List.filter_cons, if_pos rfl]
        have hd : is_decl_line (pyStripWS "") = false := rfl
        rw [hd]
        simpa using ihx acc
      · simp only [List.foldl_cons, List.filter_cons, if_neg hx]
        by_cases hdecl : is_decl_line (pyStripWS x) = true
        · rw [if_pos hdecl, hdecl]
          simpa using ihx _
        · rw [if_neg hdecl]
          rw [Bool.not_eq_true] at hdecl
          rw [hdecl]
          simpa using ihx acc
  exact haux lines []

/-! Lemmas about declaration line processing. -/

theorem pyIn_eq_mem {s : String} : pyIn "=" s = true ↔ '=' ∈ s.toList :=
  containsB_single

theorem mem_pyLStrip {a : Char} {cs : List Char} (ha : a ∉ cs) {s : String}
    (h : a ∈ s.toList) : a ∈ (pyLStrip s cs).toList :=
  mem_lstripB ha h

theorem mem_pyRStrip {a : Char} {cs : List Char} (ha : a ∉ cs) {s : String}
    (h : a ∈ s.toList) : a ∈ (pyRStrip s cs).toList := by
  show a ∈ (lstripB cs s.toList.reverse).reverse
  rw [List.mem_reverse]
  exact mem_lstripB ha (List.mem_reverse.mpr h)

theorem declBody_keeps_eq (l : String) (h : pyIn "=" l = true) :
    pyIn "=" (declBody l) = true := by
  rw [pyIn_eq_mem] at h ⊢
  unfold declBody pyStripWS
  apply mem_pyLStrip (by decide)
  apply mem_pyLStrip (by decide)
  apply mem_pyLStrip (by decide)
  apply mem_pyRStrip (by decide)
  apply mem_pyRStrip (by decide)
  apply mem_pyLStrip (by decide)
  exact h

theorem is_decl_line_eq {l : String} (h : is_decl_line l = true) :
    pyIn "=" l = true := by
  unfold is_decl_line at h
  rw [Bool.and_eq_true, Bool.and_eq_true] at h
  exact h.2

theorem exists_last_decomp {α : Type} (l : List α) (hl : l ≠ []) :
    ∃ init last, l = init ++ [last] := by
  induction l with
  | nil => exact absurd rfl hl
  | cons x xs ih =>
    cases xs with
    | nil => exact ⟨[], x, rfl⟩
    | cons y ys =>
      obtain ⟨init, last, he⟩ := ih (by simp)
      exact ⟨x :: init, last, by rw [List.cons_append, ← he]⟩

/-- Head and last decomposition of a declaration body around the assignment
    operators: the name comes from before the first operator, the value from
    after the last one. -/
theorem extract_var_decomp (l : String) (h : pyIn "=" (declBody l) = true) :
    (∃ n0 rest, declBody l = n0 ++ "=" ++ rest ∧ pyIn "=" n0 = false
       ∧ (extract_var l).1 = pyStripWS n0)
    ∧ (∃ pre v0, declBody l = pre ++ "=" ++ v0 ∧ pyIn "=" v0 = false
       ∧ (extract_var l).2 = pyStripChars (pyStripWS v0) ['"']) := by
  have hmem : '=' ∈ (declBody l).toList := pyIn_eq_mem.mp h
  have hne : splitB ['='] (declBody l).toList ≠ [] := splitF_ne_nil _ _ _
  obtain ⟨p, rest1, hsp⟩ := List.exists_cons_of_ne_nil hne
  have hj : joinB ['='] (p :: rest1) = (declBody l).toList := by
    rw [← hsp]
    exact joinB_splitB ['='] (declBody l).toList (by simp)
  have hrest : rest1 ≠ [] := by
    intro he
    subst he
    have hp : p = (declBody l).toList := hj
    exact splitB_single_not_mem '=' (declBody l).toList p
      (hsp ▸ List.mem_cons_self p []) (hp ▸ hmem)
  obtain ⟨q, rest2, hq⟩ := List.exists_cons_of_ne_nil hrest
  constructor
  · refine ⟨String.mk p, String.mk (joinB ['='] (q :: rest2)), ?_, ?_, ?_⟩
    · apply string_ext
      rw [toList_append, toList_append]
      show (declBody l).toList = p ++ ['='] ++ joinB ['='] (q :: rest2)
      rw [← hj, hq, joinB_cons₂]
    · apply Bool.eq_false_iff.mpr
      intro ht
      exact splitB_single_not_mem '=' (declBody l).toList p
        (hsp ▸ List.mem_cons_self p rest1) (pyIn_eq_mem.mp ht)
    · show pyStripWS ((pySplit "=" (declBody l)).headD "") = _
      have : pySplit "=" (declBody l) = String.mk p :: rest1.map String.mk := by
        unfold pySplit
        rw [show ("=" : String).toList = ['='] from rfl, hsp, List.map_cons]
      rw [this, List.headD_cons]
  · obtain ⟨init, last, hdec⟩ := exists_last_decomp (p :: rest1) (by simp)
    have hinit : init ≠ [] := by
      intro he
      subst he
      rw [List.nil_append, hq] at hdec
      simp at hdec
    refine ⟨String.mk (joinB ['='] init), String.mk last, ?_, ?_, ?_⟩
    · apply string_ext
      rw [toList_append, toList_append]
      show (declBody l).toList = joinB ['='] init ++ ['='] ++ last
      rw [← hj, hdec, joinB_append_last ['='] init last hinit]
    · apply Bool.eq_false_iff.mpr
      intro ht
      refine splitB_single_not_mem '=' (declBody l).toList last ?_ (pyIn_eq_mem.mp ht)
      rw [hsp, hdec]
      exact List.mem_append.mpr (Or.inr (List.mem_singleton.mpr rfl))
    · show pyStripChars (pyStripWS ((pySplit "=" (declBody l)).getLastD "")) ['"'] = _
      have h1 : pySplit "=" (declBody l) = (p :: rest1).map String.mk := by
        unfold pySplit
        rw [show ("=" : String).toList = ['='] from rfl, hsp]
      have h2 : ((p :: rest1).map String.mk).getLastD ""
          = String.mk ((p :: rest1).getLastD []) :=
        List.getLastD_map String.mk (p :: rest1) []
      rw [h1, h2, hdec, List.getLastD_concat]

/-- Entry count of the variable table: with pairwise distinct names, one entry
    per declaration line. -/
theorem get_variables_length (lines : List String)
    (hnd : ((lines.filter (fun l => is_decl_line (pyStripWS l))).map
        (fun l => (extract_var (pyStripWS l)).1)).Nodup) :
    (get_variables lines).length
      = (lines.filter (fun l => is_decl_line (pyStripWS l))).length := by
  rw [get_variables_eq_fold]
  rw [foldl_dictInsert_length _ [] (by simpa [List.map_map] using hnd)
    (by intro p _ kv hkv; simp at hkv)]
  simp

/-! Lemmas about the extra data mapping. -/

theorem listDictGet_absent (d : List (String × List String)) (k : String)
    (h : d.any (fun kv => kv.1 == k) = false) : listDictGet d k = [] := by
  induction d with
  | nil => rfl
  | cons kv rest ih =>
    rw [List.any_cons, Bool.or_eq_false_iff] at h
    unfold listDictGet
    rw [List.find?_cons_of_neg _ (by simp [h.1])]
    exact ih h.2

theorem listDictGet_append_absent (d : List (String × List String)) (k v : String)
    (h : d.any (fun kv => kv.1 == k) = false) :
    listDictGet (d ++ [(k, [v])]) k = [v] := by
  induction d with
  | nil =>
    unfold listDictGet
    rw [List.nil_append, List.find?_cons_of_pos _ (by simp)]
  | cons kv rest ih =>
    rw [List.any_cons, Bool.or_eq_false_iff] at h
    rw [List.cons_append]
    unfold listDictGet
    rw [List.find?_cons_of_neg _ (by simp [h.1])]
    exact ih h.2

theorem listDictGet_map_update (d : List (String × List String)) (k v : String)
    (h : d.any (fun kv => kv.1 == k) = true) :
    listDictGet (d.map (fun kv => if kv.1 == k then (kv.1, kv.2 ++ [v]) else kv)) k
      = listDictGet d k ++ [v] := by
  induction d with
  | nil => simp at h
  | cons kv rest ih =>
    rw [List.map_cons]
    by_cases hk : kv.1 = k
    · rw [if_pos (by simp [hk])]
      unfold listDictGet
      rw [List.find?_cons_of_pos _ (by simp [hk]),
        List.find?_cons_of_pos _ (by simp [hk])]
    · rw [if_neg (by simp [hk])]
      rw [List.any_cons] at h
      have hrest : rest.any (fun kv => kv.1 == k) = true := by
        rcases Bool.or_eq_true_iff.mp h with h1 | h2
        · exact absurd (by simpa using h1) hk
        · exact h2
      unfold listDictGet
      rw [List.find?_cons_of_neg _ (by simp [hk]),
        List.find?_cons_of_neg _ (by simp [hk])]
      exact ih hrest

theorem listDictGet_listDictAppend (d : List (String × List String))
    (scope v : String) :
    listDictGet (listDictAppend d scope v) scope = listDictGet d scope ++ [v] := by
  unfold listDictAppend
  by_cases h : d.any (fun kv => kv.1 == scope) = true
  · rw [if_pos h]
    exact listDictGet_map_update d scope v h
  · rw [if_neg h]
    rw [Bool.not_eq_true] at h
    rw [listDictGet_absent d scope h, listDictGet_append_absent d scope v h]
    rfl

/-! Lemmas about the scoped requirement parse. -/

theorem parse_req_parts_pinned (req name requirement : String)
    (nm ver : Option String)
    (h : parse_req_parts req = Except.ok (name, requirement, nm, ver, true)) :
    ∃ v, ver = some v ∧ requirement = "=" ++ v := by
  unfold parse_req_parts at h
  simp only [] at h
  split at h
  · simp at h
  · split at h
    · simp at h
    · split at h
      · split at h
        · rename_i a b heq
          simp only [Except.ok.injEq, Prod.mk.injEq, and_true] at h
          exact ⟨b, h.2.2.2.symm, h.2.1.symm⟩
        · simp at h
      · simp at h

theorem parse_req_token_dep (scope req : String) (d : DependentPackage)
    (h : parse_req_token scope req = Except.ok (ReqOutcome.dep d)) :
    ∃ name requirement nm ver pinned,
      parse_req_parts req = Except.ok (name, requirement, nm, ver, pinned)
      ∧ ¬(name = "pip" ∨ name = "python")
      ∧ d = ⟨⟨"conda", nm, name, ver⟩, some requirement, scope,
            pyIn "run" scope, !(pyIn "run" scope), pinned, true⟩ := by
  unfold parse_req_token at h
  split at h
  · simp at h
  case _ name requirement nm ver pinned heq =>
    split at h
    · simp at h
    case _ hres =>
      simp only [Except.ok.injEq, ReqOutcome.dep.injEq] at h
      exact ⟨name, requirement, nm, ver, pinned, heq, hres, h.symm⟩

theorem parse_req_token_pinned (scope req : String) (d : DependentPackage)
    (h : parse_req_token scope req = Except.ok (ReqOutcome.dep d))
    (hp : d.is_pinned = true) :
    ∃ v, d.purl.version = some v ∧ d.extracted_requirement = some ("=" ++ v) := by
  obtain ⟨name, requirement, nm, ver, pinned, hparts, _, hd⟩ :=
    parse_req_token_dep scope req d h
  subst hd
  simp only at hp
  subst hp
  obtain ⟨v, hv, hr⟩ := parse_req_parts_pinned req name requirement nm ver hparts
  exact ⟨v, by simp [hv], by simp [hr]⟩

theorem meta_req_step_bucket (scope req : String) (st : MetaState)
    (name requirement : String) (nm ver : Option String) (pinned : Bool)
    (hparts : parse_req_parts req = Except.ok (name, requirement, nm, ver, pinned))
    (hres : name = "pip" ∨ name = "python") :
    meta_req_step scope st req
      = Except.ok ⟨st.deps, listDictAppend st.extra scope req⟩ := by
  unfold meta_req_step parse_req_token
  simp only [hparts]
  rw [if_pos hres]

theorem meta_scope_run_deps (P : DependentPackage → Prop)
    (hP : ∀ scope req d,
      parse_req_token scope req = Except.ok (ReqOutcome.dep d) → P d)
    (scope : String) :
    ∀ (reqs : List String) (st st2 : MetaState),
      meta_scope_run scope st reqs = Except.ok st2 →
      (∀ d ∈ st.deps, P d) → ∀ d ∈ st2.deps, P d := by
  intro reqs
  induction reqs with
  | nil =>
    intro st st2 h hst
    unfold meta_scope_run at h
    simp only [Except.ok.injEq] at h
    subst h
    exact hst
  | cons r rs ih =>
    intro st st2 h hst
    unfold meta_scope_run at h
    split at h
    · simp at h
    case _ st1 heq =>
      refine ih st1 st2 h ?_
      unfold meta_req_step at heq
      split at heq
      · simp at heq
      case _ houtcome =>
        simp only [Except.ok.injEq] at heq
        subst heq
        simpa using hst
      case _ d' houtcome =>
        simp only [Except.ok.injEq] at heq
        subst heq
        intro d hd
        simp only [List.mem_append, List.mem_singleton] at hd
        rcases hd with hd | hd
        · exact hst d hd
        · exact hd ▸ hP scope r d' houtcome

theorem parse_requirements_from_deps (P : DependentPackage → Prop)
    (hP : ∀ scope req d,
      parse_req_token scope req = Except.ok (ReqOutcome.dep d) → P d) :
    ∀ (reqs : List (String × List String)) (st st2 : MetaState),
      parse_requirements_from st reqs = Except.ok st2 →
      (∀ d ∈ st.deps, P d) → ∀ d ∈ st2.deps, P d := by
  intro reqs
  induction reqs with
  | nil =>
    intro st st2 h hst
    unfold parse_requirements_from at h
    simp only [Except.ok.injEq] at h
    subst h
    exact hst
  | cons kv rest ih =>
    intro st st2 h hst
    unfold parse_requirements_from at h
    split at h
    · simp at h
    case _ st1 heq =>
      exact ih st1 st2 h (meta_scope_run_deps P hP kv.1 kv.2 st st1 heq hst)

/-! Lemmas about the flat environment list parse. -/

theorem parse_flat_str_emit (prl : String → Option ReqParse) (st : VerState)
    (d0 : String) (r : DependentPackage) (st2 : VerState)
    (h : parse_flat_str prl st d0 = Except.ok (some r, st2)) :
    (r.purl.name ≠ "pip" ∧ r.purl.name ≠ "python")
    ∧ (r.is_pinned = true → r.purl.version.isSome = true) := by
  unfold parse_flat_str at h
  split at h
  · simp at h
  case _ nm dep heq =>
    split at h
    case _ req hreq =>
      simp only [] at h
      split at h
      · simp at h
      case _ hres =>
        simp only [Except.ok.injEq, Prod.mk.injEq, Option.some.injEq] at h
        rcases h with ⟨hr, -⟩
        subst hr
        push_neg at hres
        refine ⟨⟨by simpa using hres.1, by simpa using hres.2⟩, ?_⟩
        by_cases hc : pyIn "==" req.specs = true
        · intro _
          simp [hc]
        · intro hp
          rw [Bool.not_eq_true] at hc
          simp [hc] at hp
    case _ hreq =>
      split at h
      · split at h
        case _ a b heq2 =>
          simp only [] at h
          split at h
          · simp at h
          case _ hres =>
            simp only [Except.ok.injEq, Prod.mk.injEq, Option.some.injEq] at h
            rcases h with ⟨hr, -⟩
            subst hr
            push_neg at hres
            exact ⟨⟨by simpa using hres.1, by simpa using hres.2⟩, fun _ => by simp⟩
        · simp at h
      · split at h
        · simp at h
        case _ v hst =>
          simp only [] at h
          split at h
          · simp at h
          case _ hres =>
            simp only [Except.ok.injEq, Prod.mk.injEq, Option.some.injEq] at h
            rcases h with ⟨hr, -⟩
            subst hr
            push_neg at hres
            exact ⟨⟨by simpa using hres.1, by simpa using hres.2⟩,
              fun hp => by simp at hp⟩

theorem parse_flat_pipline_emit (prl : String → Option ReqParse) (st : VerState)
    (line : String) (r : DependentPackage) (st2 : VerState)
    (h : parse_flat_pipline prl st line = (some r, st2)) :
    r.is_pinned = true → r.purl.version.isSome = true := by
  unfold parse_flat_pipline at h
  split at h
  · simp at h
  case _ req hreq =>
    simp only [] at h
    simp only [Prod.mk.injEq, Option.some.injEq] at h
    rcases h with ⟨hr, -⟩
    subst hr
    by_cases hc : pyIn "==" req.specs = true
    · intro _
      simp [hc]
    · intro hp
      rw [Bool.not_eq_true] at hc
      simp [hc] at hp

theorem pip_fold_inv (prl : String → Option ReqParse) (lines : List String) :
    ∀ (acc : List DependentPackage × VerState),
      (∀ r ∈ acc.1, r.is_pinned = true → r.purl.version.isSome = true) →
      ∀ r ∈ (lines.foldl
          (fun acc line =>
            let rr := parse_flat_pipline prl acc.2 line
            (acc.1 ++ rr.1.toList, rr.2)) acc).1,
        r.is_pinned = true → r.purl.version.isSome = true := by
  induction lines with
  | nil => intro acc hacc; exact hacc
  | cons x xs ih =>
    intro acc hacc
    simp only [List.foldl_cons]
    apply ih
    intro r hr
    simp only [] at hr
    rw [List.mem_append] at hr
    rcases hr with hr | hr
    · exact hacc r hr
    · cases hpp : parse_flat_pipline prl acc.2 x with
      | mk o st3 =>
        rw [hpp] at hr
        cases o with
        | none => simp at hr
        | some r3 =>
          simp only [Option.toList] at hr
          rw [List.mem_singleton] at hr
          subst hr
          exact parse_flat_pipline_emit prl acc.2 x r st3 hpp

theorem parse_flat_item_inv (prl : String → Option ReqParse) (st : VerState)
    (item : CondaDep) (out : List DependentPackage) (st2 : VerState)
    (h : parse_flat_item prl st item = Except.ok (out, st2)) :
    ∀ r ∈ out, r.is_pinned = true → r.purl.version.isSome = true := by
  cases item with
  | str d0 =>
    simp only [parse_flat_item] at h
    cases hps : parse_flat_str prl st d0 with
    | error e =>
      rw [hps] at h
      simp at h
    | ok pair =>
      obtain ⟨o, st3⟩ := pair
      rw [hps] at h
      simp only [Except.ok.injEq, Prod.mk.injEq] at h
      rcases h with ⟨ho, -⟩
      subst ho
      cases o with
      | none => simp
      | some r3 =>
        intro r hr
        simp only [Option.toList] at hr
        rw [List.mem_singleton] at hr
        subst hr
        exact (parse_flat_str_emit prl st d0 r st3 hps).2
  | pipmap lines =>
    simp only [parse_flat_item] at h
    simp only [Except.ok.injEq] at h
    intro r hr
    refine pip_fold_inv prl lines ([], st) (by simp) r ?_
    rw [h]
    exact hr

theorem run_flat_inv (prl : String → Option ReqParse) :
    ∀ (ds : List CondaDep) (st : VerState) (out : List DependentPackage)
      (st2 : VerState),
      run_flat prl st ds = Except.ok (out, st2) →
      ∀ r ∈ out, r.is_pinned = true → r.purl.version.isSome = true := by
  intro ds
  induction ds with
  | nil =>
    intro st out st2 h
    unfold run_flat at h
    simp only [Except.ok.injEq, Prod.mk.injEq] at h
    rcases h with ⟨ho, -⟩
    subst ho
    simp
  | cons d rest ih =>
    intro st out st2 h
    unfold run_flat at h
    split at h
    · simp at h
    case _ o stA heq =>
      split at h
      · simp at h
      case _ orest stB heq2 =>
        simp only [Except.ok.injEq, Prod.mk.injEq] at h
        rcases h with ⟨ho, -⟩
        subst ho
        intro r hr
        rw [List.mem_append] at hr
        rcases hr with hr | hr
        · exact parse_flat_item_inv prl st d o stA heq r hr
        · exact ih stA orest stB heq2 r hr

theorem run_flat_append (prl : String → Option ReqParse) :
    ∀ (ds1 ds2 : List CondaDep) (st : VerState) (out : List DependentPackage)
      (st2 : VerState),
      run_flat prl st (ds1 ++ ds2) = Except.ok (out, st2) →
      ∃ out1 st1 out2,
        run_flat prl st ds1 = Except.ok (out1, st1)
        ∧ run_flat prl st1 ds2 = Except.ok (out2, st2)
        ∧ out = out1 ++ out2 := by
  intro ds1
  induction ds1 with
  | nil =>
    intro ds2 st out st2 h
    exact ⟨[], st, out, rfl, by simpa using h, by simp⟩
  | cons d rest ih =>
    intro ds2 st out st2 h
    rw [List.cons_append] at h
    unfold run_flat at h
    split at h
    · simp at h
    case _ o stA heq =>
      split at h
      · simp at h
      case _ orest stB heq2 =>
        simp only [Except.ok.injEq, Prod.mk.injEq] at h
        obtain ⟨ho, hst⟩ := h
        subst hst
        obtain ⟨out1, st1, out2, h1, h2, he⟩ := ih ds2 stA orest stB heq2
        refine ⟨o ++ out1, st1, out2, ?_, h2, ?_⟩
        · show run_flat prl st (d :: rest) = _
          simp only [run_flat, heq, h1]
        · rw [← ho, he, List.append_assoc]

/-! Symbolic evaluation lemmas for requirement tokens of the shape
    name, space, exact pin expression. -/

theorem pyIn_single_not_mem {ch : Char} {s : String}
    (h : containsB [ch] s.toList = false) : ch ∉ s.toList := by
  intro hm
  rw [containsB_single.mpr hm] at h
  exact Bool.noConfusion h

theorem pyPartition2_space (a b : String) (ha : pyIn " " a = false) :
    pyPartition2 (a ++ " " ++ b) " " = (a, b) := by
  have hmem : ' ' ∉ a.toList := pyIn_single_not_mem ha
  have htl : (a ++ " " ++ b).toList = a.toList ++ ' ' :: b.toList := by
    rw [toList_append, toList_append]
    simp
  have hsp : splitB [' '] ((a ++ " " ++ b).toList)
      = a.toList :: splitB [' '] b.toList := by
    rw [htl]
    exact splitB_append_cons ' ' a.toList b.toList hmem
  have hps : pySplit " " (a ++ " " ++ b) = a :: pySplit " " b := by
    unfold pySplit
    rw [show (" " : String).toList = [' '] from rfl, hsp, List.map_cons, mk_toList]
  unfold pyPartition2
  rw [hps]
  cases hpb : pySplit " " b with
  | nil =>
    refine absurd ?_ (splitF_ne_nil [' '] b.toList.length b.toList)
    have : (splitB [' '] b.toList).map String.mk = [] := by
      rw [show (splitB [' '] b.toList).map String.mk = pySplit " " b from rfl, hpb]
    exact List.map_eq_nil_iff.mp this
  | cons t ts =>
    show (a, pyJoin " " (t :: ts)) = (a, b)
    rw [← hpb, pyJoin_pySplit " " b (by decide)]

theorem pyStarts_sep_append (sep r : String) : pyStarts (sep ++ r) sep = true := by
  unfold pyStarts
  rw [toList_append]
  exact startsB_self_append sep.toList r.toList

theorem splitB_sep_append (sep rest : List Char) (hs : sep ≠ []) :
    splitB sep (sep ++ rest) = [] :: splitB sep rest := by
  cases sep with
  | nil => exact absurd rfl hs
  | cons s ss =>
    rw [List.cons_append, splitB_cons]
    have hcond : (startsB (s :: ss) (s :: (ss ++ rest)) && !(s :: ss).isEmpty) = true := by
      have h1 : startsB (s :: ss) ((s :: ss) ++ rest) = true :=
        startsB_self_append _ _
      rw [List.cons_append] at h1
      rw [h1]
      rfl
    rw [if_pos hcond]
    congr 1
    rw [show (s :: ss).length - 1 = ss.length by simp]
    rw [List.drop_left]

theorem pySplit_sep_append (sep b : String) (hsep : sep ≠ "")
    (hb : pyIn sep b = false) : pySplit sep (sep ++ b) = ["", b] := by
  unfold pySplit
  rw [toList_append,
    splitB_sep_append sep.toList b.toList (fun he => hsep (toList_eq_nil.mp he)),
    splitB_of_not_contains sep.toList b.toList hb]
  rw [List.map_cons, List.map_cons, List.map_nil, mk_toList]

theorem parse_req_parts_eqeq (name ver : String)
    (h1 : pyIn " " name = false) (h2 : pyIn "=" name = false)
    (h3 : pyIn "::" name = false) (h4 : pyIn "==" ver = false) :
    parse_req_parts (name ++ " ==" ++ ver)
      = Except.ok (name, "==" ++ ver, none, some ver, false) := by
  have harg : name ++ " ==" ++ ver = name ++ " " ++ ("==" ++ ver) := by
    apply string_ext
    rw [toList_append, toList_append, toList_append, toList_append]
    simp
  have hpart : pyPartition2 (name ++ " ==" ++ ver) " " = (name, "==" ++ ver) := by
    rw [harg]
    exact pyPartition2_space name ("==" ++ ver) h1
  unfold parse_req_parts
  rw [hpart]
  dsimp only
  rw [if_pos (pyStarts_sep_append "==" ver)]
  rw [pySplit_sep_append "==" ver (by decide) h4]
  dsimp only
  rw [if_neg (by simp [h3])]
  dsimp only
  rw [if_neg (by simp [h2])]

theorem parse_req_token_eqeq (scope name ver : String)
    (h1 : pyIn " " name = false) (h2 : pyIn "=" name = false)
    (h3 : pyIn "::" name = false) (h4 : pyIn "==" ver = false)
    (h5 : ¬(name = "pip" ∨ name = "python")) :
    parse_req_token scope (name ++ " ==" ++ ver)
      = Except.ok (ReqOutcome.dep
          ⟨⟨"conda", none, name, some ver⟩, some ("==" ++ ver), scope,
            pyIn "run" scope, !(pyIn "run" scope), false, true⟩) := by
  unfold parse_req_token
  rw [parse_req_parts_eqeq name ver h1 h2 h3 h4]
  dsimp only
  rw [if_neg h5]

/-! The per variable substitution characterised as replacement of every
    leftmost non overlapping occurrence, for a one entry table. -/

theorem subst_line_single (v val line : String)
    (hm1 : pyIn "\x7b\x7b" line = true) (hm2 : pyIn "\x7d\x7d" line = true) :
    (pyIn "|lower" line = false →
      subst_line [(v, val)] line
        = pyJoin val (pySplit ("\x7b\x7b " ++ v ++ " \x7d\x7d") line))
    ∧ (pyIn "|lower" line = true →
      subst_line [(v, val)] line
        = pyJoin (pyLower val) (pySplit ("\x7b\x7b " ++ v ++ "|lower \x7d\x7d") line)) := by
  unfold subst_line
  rw [if_pos (by simp [hm1, hm2])]
  simp only [List.foldl_cons, List.foldl_nil]
  constructor
  · intro hl
    rw [if_neg (by simp [hl])]
    exact pyReplace_eq_join line ("\x7b\x7b " ++ v ++ " \x7d\x7d") val
  · intro hl
    rw [if_pos hl]
    exact pyReplace_eq_join line ("\x7b\x7b " ++ v ++ "|lower \x7d\x7d") (pyLower val)

/-! Claim theorems. -/

/-- Claim C1: the claim states that parsing a dependency token never raises
    and that a token without recognizable separators gets no version.  The
    code violates this: in get_conda_yaml_dependencies the local variable
    version is never initialised on the path where the external requirement
    parser returns none and the token holds no assignment operator, so the
    first such token raises UnboundLocalError (and later ones would silently
    reuse a stale version).  This theorem evaluates the embedded code at the
    failing input. -/
theorem claim_C1_failing_input :
    get_conda_yaml_dependencies parse_requirement_line [CondaDep.str "zlib 1.2 h77"]
      = Except.error "UnboundLocalError" := rfl

/-- Claim C2: template resolution is total and handles unsupported template
    constructs by dropping the affected lines: every line of the output is
    free of the unresolved opening reference marker, and every output line
    stems from an input line through the per line processing step, so no
    construct is ever answered with an exception. -/
theorem claim_C2 : ∀ (vt : List (String × String)) (lines : List String),
    (∀ l ∈ resolve vt lines, pyIn "\x7b\x7b" l = false)
    ∧ (∀ l ∈ resolve vt lines, ∃ l0 ∈ lines, process_line vt l0 = some l) :=
  fun vt lines => ⟨resolve_no_marker vt lines, resolve_provenance vt lines⟩

theorem claim_C2_witness :
    pyIn "\x7b\x7b" "a: 1" = false
    ∧ (∃ l0 ∈ ["a: 1", "b: \x7b\x7b undeclared \x7d\x7d"],
        process_line [] l0 = some "a: 1") := by
  have h := claim_C2 [] ["a: 1", "b: \x7b\x7b undeclared \x7d\x7d"]
  have hm : "a: 1" ∈ resolve [] ["a: 1", "b: \x7b\x7b undeclared \x7d\x7d"] := by decide
  exact ⟨h.1 "a: 1" hm, h.2 "a: 1" hm⟩

/-- Claim C3 (counterexample): on a line that carries both the plain form and
    the lower form of the same variable, the code only replaces the lower
    form, because the branch tests for the lower marker anywhere in the line;
    the plain occurrence survives, so the result is not the fully substituted
    line the claim demands. -/
theorem claim_C3_counterexample :
    subst_line [("v", "A")] "\x7b\x7b v \x7d\x7d \x7b\x7b v|lower \x7d\x7d"
      = "\x7b\x7b v \x7d\x7d a"
    ∧ pyIn "\x7b\x7b v \x7d\x7d" "\x7b\x7b v \x7d\x7d a" = true
    ∧ ("\x7b\x7b v \x7d\x7d a" : String) ≠ "A a" :=
  ⟨rfl, rfl, by decide⟩

/-- Claim C3 (amended): for a one entry variable table and a line holding
    both reference markers, when the line does not contain the lower filter
    marker every occurrence of the plain reference is replaced by the literal
    value, and when it does contain the marker every occurrence of the lower
    form is replaced by the lower cased value while plain occurrences are
    left alone; replacement of every occurrence is expressed as join of the
    split on the pattern. -/
theorem claim_C3 : ∀ (v val line : String),
    pyIn "\x7b\x7b" line = true → pyIn "\x7d\x7d" line = true →
    (pyIn "|lower" line = false →
      subst_line [(v, val)] line
        = pyJoin val (pySplit ("\x7b\x7b " ++ v ++ " \x7d\x7d") line))
    ∧ (pyIn "|lower" line = true →
      subst_line [(v, val)] line
        = pyJoin (pyLower val) (pySplit ("\x7b\x7b " ++ v ++ "|lower \x7d\x7d") line)) :=
  fun v val line hm1 hm2 => subst_line_single v val line hm1 hm2

theorem claim_C3_witness :
    subst_line [("v", "A")] "x: \x7b\x7b v \x7d\x7d y: \x7b\x7b v \x7d\x7d"
      = pyJoin "A"
          (pySplit ("\x7b\x7b " ++ "v" ++ " \x7d\x7d")
            "x: \x7b\x7b v \x7d\x7d y: \x7b\x7b v \x7d\x7d") :=
  (claim_C3 "v" "A" "x: \x7b\x7b v \x7d\x7d y: \x7b\x7b v \x7d\x7d" rfl rfl).1 rfl

/-- Claim C4 (counterexample): the code splits the processed declaration body
    on every assignment operator and keeps the LAST part as the value, not
    the part after the first operator: for a value containing an operator the
    two disagree. -/
theorem claim_C4_counterexample :
    get_variables ["\x7b% set url = \"a=b\" %\x7d"] = [("url", "b")]
    ∧ spec_first_split_value (pyStripWS "\x7b% set url = \"a=b\" %\x7d") = "a=b"
    ∧ ("b" : String) ≠ "a=b" :=
  ⟨rfl, rfl, by decide⟩

/-- Claim C4 (amended): extraction takes the name from before the first
    assignment operator and the value from after the LAST one, quote
    characters stripped (these coincide when the body holds exactly one
    operator); and for any text whose declaration lines carry pairwise
    distinct names, the table has exactly one entry per declaration line. -/
theorem claim_C4 :
    (∀ lines : List String,
      ((lines.filter (fun l => is_decl_line (pyStripWS l))).map
        (fun l => (extract_var (pyStripWS l)).1)).Nodup →
      (get_variables lines).length
        = (lines.filter (fun l => is_decl_line (pyStripWS l))).length)
    ∧ (∀ l : String, is_decl_line l = true →
        (∃ n0 rest, declBody l = n0 ++ "=" ++ rest ∧ pyIn "=" n0 = false
           ∧ (extract_var l).1 = pyStripWS n0)
        ∧ (∃ pre v0, declBody l = pre ++ "=" ++ v0 ∧ pyIn "=" v0 = false
           ∧ (extract_var l).2 = pyStripChars (pyStripWS v0) ['"'])) :=
  ⟨fun lines hnd => get_variables_length lines hnd,
    fun l hl => extract_var_decomp l (declBody_keeps_eq l (is_decl_line_eq hl))⟩

theorem claim_C4_witness :
    (get_variables ["\x7b% set version = \"0.45.0\" %\x7d", "package:"]).length
      = (["\x7b% set version = \"0.45.0\" %\x7d", "package:"].filter
          (fun l => is_decl_line (pyStripWS l))).length
    ∧ ((∃ n0 rest,
          declBody "\x7b% set version = \"0.45.0\" %\x7d" = n0 ++ "=" ++ rest
          ∧ pyIn "=" n0 = false
          ∧ (extract_var "\x7b% set version = \"0.45.0\" %\x7d").1 = pyStripWS n0)
       ∧ (∃ pre v0,
          declBody "\x7b% set version = \"0.45.0\" %\x7d" = pre ++ "=" ++ v0
          ∧ pyIn "=" v0 = false
          ∧ (extract_var "\x7b% set version = \"0.45.0\" %\x7d").2
            = pyStripChars (pyStripWS v0) ['"'])) :=
  ⟨claim_C4.1 ["\x7b% set version = \"0.45.0\" %\x7d", "package:"] (by decide),
    claim_C4.2 "\x7b% set version = \"0.45.0\" %\x7d" (by decide)⟩

/-- Claim C5 (counterexample): resolution is not idempotent as claimed: a
    substituted value may introduce an assignment operator into a line framed
    by statement markers, turning it into a declaration line that a second
    resolution pass then drops. -/
theorem claim_C5_counterexample :
    resolve [("v", "a=b")]
        (resolve [("v", "a=b")] ["\x7b% if \x7b\x7b v \x7d\x7d %\x7d"])
      ≠ resolve [("v", "a=b")] ["\x7b% if \x7b\x7b v \x7d\x7d %\x7d"] := by
  decide

/-- Claim C5 (amended): the cleaned text never contains the unresolved
    opening reference marker; re-application leaves the output unchanged
    provided no output line is empty and no output line has become a
    declaration line (substitution can create such lines, which a second
    pass would drop, as the counterexample shows). -/
theorem claim_C5 : ∀ (vt : List (String × String)) (lines : List String),
    (∀ l ∈ resolve vt lines, pyIn "\x7b\x7b" l = false)
    ∧ ((∀ l ∈ resolve vt lines, l ≠ "" ∧ is_decl_line (pyStripWS l) = false) →
        resolve vt (resolve vt lines) = resolve vt lines) := by
  intro vt lines
  refine ⟨resolve_no_marker vt lines, fun hc => resolve_fixed vt (resolve vt lines) ?_⟩
  intro l hl
  exact ⟨(hc l hl).1, (hc l hl).2, resolve_no_marker vt lines l hl⟩

theorem claim_C5_witness :
    (∀ l ∈ resolve [("v", "1.0")] ["name: x", "version: \x7b\x7b v \x7d\x7d"],
      pyIn "\x7b\x7b" l = false)
    ∧ resolve [("v", "1.0")]
        (resolve [("v", "1.0")] ["name: x", "version: \x7b\x7b v \x7d\x7d"])
      = resolve [("v", "1.0")] ["name: x", "version: \x7b\x7b v \x7d\x7d"] := by
  have h := claim_C5 [("v", "1.0")] ["name: x", "version: \x7b\x7b v \x7d\x7d"]
  exact ⟨h.1, h.2 (by decide)⟩

/-- Claim C6: the scoped recipe parse of the token conda-forge::numpy=1.15.4
    yields a record with identifier type conda, namespace conda-forge, name
    numpy, version 1.15.4, and the pinned flag set, with the requirement
    expression rewritten to the pin form. -/
theorem claim_C6 :
    parse_req_token "run" "conda-forge::numpy=1.15.4"
      = Except.ok (ReqOutcome.dep
          ⟨⟨"conda", some "conda-forge", "numpy", some "1.15.4"⟩, some "=1.15.4",
            "run", true, false, true, true⟩) := rfl

/-- Claim C7 (counterexample): a reserved name arriving through the pip sub
    list of the flat dependency list is NOT dropped: the code only filters
    reserved names on the string item path, so a pip pin in the pip mapping
    is emitted as an ordinary record with name pip. -/
theorem claim_C7_counterexample :
    get_conda_yaml_dependencies parse_requirement_line
        [CondaDep.pipmap ["pip==21.0"]]
      = Except.ok [⟨⟨"pypi", none, "pip", some "21.0"⟩, some "==21.0",
          "dependencies", true, false, true, true⟩]
    ∧ (⟨⟨"pypi", none, "pip", some "21.0"⟩, some "==21.0", "dependencies",
        true, false, true, true⟩ : DependentPackage).purl.name = "pip" :=
  ⟨rfl, rfl⟩

/-- Claim C7 (amended): parsing the environment list with python and numpy
    yields exactly the one numpy record; every record emitted from a string
    item has a name different from pip and python (records from pip mapping
    sub lists are not post filtered); and the emissions of a split of the
    input concatenate in source order, so the relative order of surviving
    entries matches the source. -/
theorem claim_C7 :
    (get_conda_yaml_dependencies parse_requirement_line
        [CondaDep.str "python >=3.6", CondaDep.str "numpy"]
      = Except.ok [⟨⟨"pypi", none, "numpy", none⟩, some "", "dependencies",
          true, false, false, true⟩])
    ∧ (∀ (prl : String → Option ReqParse) (st : VerState) (d0 : String)
        (r : DependentPackage) (st2 : VerState),
        parse_flat_str prl st d0 = Except.ok (some r, st2) →
        r.purl.name ≠ "pip" ∧ r.purl.name ≠ "python")
    ∧ (∀ (prl : String → Option ReqParse) (ds1 ds2 : List CondaDep)
        (st : VerState) (out : List DependentPackage) (st2 : VerState),
        run_flat prl st (ds1 ++ ds2) = Except.ok (out, st2) →
        ∃ out1 st1 out2, run_flat prl st ds1 = Except.ok (out1, st1)
          ∧ run_flat prl st1 ds2 = Except.ok (out2, st2)
          ∧ out = out1 ++ out2) :=
  ⟨rfl,
    fun prl st d0 r st2 h => (parse_flat_str_emit prl st d0 r st2 h).1,
    fun prl ds1 ds2 st out st2 h => run_flat_append prl ds1 ds2 st out st2 h⟩

theorem claim_C7_witness :
    ((⟨⟨"pypi", none, "numpy", none⟩, some "", "dependencies", true, false,
        false, true⟩ : DependentPackage).purl.name ≠ "pip"
      ∧ (⟨⟨"pypi", none, "numpy", none⟩, some "", "dependencies", true, false,
        false, true⟩ : DependentPackage).purl.name ≠ "python")
    ∧ (∃ out1 st1 out2,
        run_flat parse_requirement_line none [CondaDep.str "python >=3.6"]
          = Except.ok (out1, st1)
        ∧ run_flat parse_requirement_line st1 [CondaDep.str "numpy"]
          = Except.ok (out2, some none)
        ∧ [(⟨⟨"pypi", none, "numpy", none⟩, some "", "dependencies", true,
            false, false, true⟩ : DependentPackage)] = out1 ++ out2) :=
  ⟨claim_C7.2.1 parse_requirement_line none "numpy"
      ⟨⟨"pypi", none, "numpy", none⟩, some "", "dependencies", true, false,
        false, true⟩ (some none) rfl,
    claim_C7.2.2 parse_requirement_line [CondaDep.str "python >=3.6"]
      [CondaDep.str "numpy"] none
      [⟨⟨"pypi", none, "numpy", none⟩, some "", "dependencies", true, false,
        false, true⟩] (some none) rfl⟩

/-- Claim C8: a scoped recipe requirement whose parsed name is pip or python
    emits no ordinary dependency record: the step leaves the dependency list
    unchanged and appends the raw token to the auxiliary list kept under the
    scope name in extra data. -/
theorem claim_C8 : ∀ (scope req : String) (st : MetaState)
    (name requirement : String) (nm ver : Option String) (pinned : Bool),
    parse_req_parts req = Except.ok (name, requirement, nm, ver, pinned) →
    (name = "pip" ∨ name = "python") →
    meta_req_step scope st req
      = Except.ok ⟨st.deps, listDictAppend st.extra scope req⟩
    ∧ listDictGet (listDictAppend st.extra scope req) scope
      = listDictGet st.extra scope ++ [req] :=
  fun scope req st name requirement nm ver pinned hp hr =>
    ⟨meta_req_step_bucket scope req st name requirement nm ver pinned hp hr,
      listDictGet_listDictAppend st.extra scope req⟩

theorem claim_C8_witness :
    meta_req_step "run" ⟨[], []⟩ "python >=3.6"
      = Except.ok ⟨(⟨[], []⟩ : MetaState).deps,
          listDictAppend (⟨[], []⟩ : MetaState).extra "run" "python >=3.6"⟩
    ∧ listDictGet (listDictAppend (⟨[], []⟩ : MetaState).extra "run" "python >=3.6") "run"
      = listDictGet (⟨[], []⟩ : MetaState).extra "run" ++ ["python >=3.6"] :=
  claim_C8 "run" "python >=3.6" ⟨[], []⟩ "python" ">=3.6" none none false rfl
    (Or.inr rfl)

/-- Claim C9: in both parsers every emitted record with the pinned flag set
    carries a version in its identifier (which also backs the pin requirement
    expression): the flat environment list parse and the full scoped recipe
    requirements parse both maintain this invariant. -/
theorem claim_C9 :
    (∀ (prl : String → Option ReqParse) (deps : List CondaDep)
        (out : List DependentPackage),
      get_conda_yaml_dependencies prl deps = Except.ok out →
      ∀ r ∈ out, r.is_pinned = true → r.purl.version.isSome = true)
    ∧ (∀ (reqs : List (String × List String)) (st : MetaState),
      parse_requirements reqs = Except.ok st →
      ∀ d ∈ st.deps, d.is_pinned = true → d.purl.version.isSome = true) := by
  constructor
  · intro prl deps out h
    unfold get_conda_yaml_dependencies at h
    cases hrf : run_flat prl none deps with
    | error e =>
      rw [hrf] at h
      simp at h
    | ok pair =>
      obtain ⟨out0, stf⟩ := pair
      rw [hrf] at h
      simp only [Except.ok.injEq] at h
      subst h
      exact run_flat_inv prl deps none out0 stf hrf
  · intro reqs st h
    refine parse_requirements_from_deps
      (fun d => d.is_pinned = true → d.purl.version.isSome = true)
      ?_ reqs ⟨[], []⟩ st h (by simp)
    intro scope req d hd hp
    obtain ⟨v, hv, -⟩ := parse_req_token_pinned scope req d hd hp
    rw [hv]
    rfl

theorem claim_C9_witness :
    (∀ r ∈ [(⟨⟨"conda", none, "openssl", some "1.1.1w"⟩, some "=1.1.1w",
        "dependencies", true, false, true, true⟩ : DependentPackage)],
      r.is_pinned = true → r.purl.version.isSome = true)
    ∧ (∀ d ∈ (⟨[⟨⟨"conda", none, "numpy", some "1.15"⟩, some "=1.15", "run",
          true, false, true, true⟩], []⟩ : MetaState).deps,
      d.is_pinned = true → d.purl.version.isSome = true) :=
  ⟨claim_C9.1 parse_requirement_line [CondaDep.str "openssl=1.1.1w"]
      [⟨⟨"conda", none, "openssl", some "1.1.1w"⟩, some "=1.1.1w",
        "dependencies", true, false, true, true⟩] rfl,
    claim_C9.2 [("run", ["numpy=1.15"])]
      ⟨[⟨⟨"conda", none, "numpy", some "1.15"⟩, some "=1.15", "run", true,
        false, true, true⟩], []⟩ rfl⟩

/-- Claim C10: a scoped token of the shape name, space, double equals pin
    keeps the extracted version in the identifier and the original double
    equals text as its requirement expression while the pinned flag stays
    false; and whenever a record comes out pinned, its version and the
    rewritten single equals requirement expression stem from a pin embedded
    directly in the name part. -/
theorem claim_C10 :
    (∀ scope name ver : String,
      pyIn " " name = false → pyIn "=" name = false → pyIn "::" name = false →
      pyIn "==" ver = false → ¬(name = "pip" ∨ name = "python") →
      parse_req_token scope (name ++ " ==" ++ ver)
        = Except.ok (ReqOutcome.dep
            ⟨⟨"conda", none, name, some ver⟩, some ("==" ++ ver), scope,
              pyIn "run" scope, !(pyIn "run" scope), false, true⟩))
    ∧ (∀ (scope req : String) (d : DependentPackage),
        parse_req_token scope req = Except.ok (ReqOutcome.dep d) →
        d.is_pinned = true →
        ∃ v, d.purl.version = some v
          ∧ d.extracted_requirement = some ("=" ++ v)) :=
  ⟨fun scope name ver h1 h2 h3 h4 h5 =>
      parse_req_token_eqeq scope name ver h1 h2 h3 h4 h5,
    fun scope req d hd hp => parse_req_token_pinned scope req d hd hp⟩

theorem claim_C10_witness :
    parse_req_token "run" ("mccortex" ++ " ==" ++ "1.0")
      = Except.ok (ReqOutcome.dep
          ⟨⟨"conda", none, "mccortex", some "1.0"⟩, some ("==" ++ "1.0"), "run",
            pyIn "run" "run", !(pyIn "run" "run"), false, true⟩)
    ∧ (∃ v, (⟨⟨"conda", some "conda-forge", "numpy", some "1.15.4"⟩,
          some "=1.15.4", "run", true, false, true,
          true⟩ : DependentPackage).purl.version = some v
        ∧ (⟨⟨"conda", some "conda-forge", "numpy", some "1.15.4"⟩,
          some "=1.15.4", "run", true, false, true,
          true⟩ : DependentPackage).extracted_requirement = some ("=" ++ v)) :=
  ⟨claim_C10.1 "run" "mccortex" "1.0" rfl rfl rfl rfl (by decide),
    claim_C10.2 "run" "conda-forge::numpy=1.15.4"
      ⟨⟨"conda", some "conda-forge", "numpy", some "1.15.4"⟩, some "=1.15.4",
        "run", true, false, true, true⟩ rfl rfl⟩

end CondaPy
